import Mathlib

/-!
Shallow embedding of the drift-detection engine of the Sentinel repository
(`src/drift_detection/detector.py`) together with proofs about it.

Modelling conventions:
* A pandas `DataFrame` is an ordered association list of named columns; a
  column carries its dtype (at the granularity the detector inspects:
  numeric vs `object` vs `category`) and a list of optional scalar cells
  (`none` models a missing value / NaN).
* Machine floats are modelled by exact arithmetic: data, statistics and
  thresholds live in `ℚ`; the PSI value and the chi-square p-value, which
  involve logarithms and the chi-square survival function, live in `ℝ`.
* scipy's `ks_2samp` is embedded by its exact method (the default for the
  sample sizes this engine sees): the two-sample ECDF sup-distance and the
  exact lattice-path tail probability.
* scipy's `chi2_contingency` is embedded with its zero-expected-frequency
  error, its `dof = 0` special case, and Yates' continuity correction
  (difference magnitude clamped at 1/2, as in scipy >= 1.7) when `dof = 1`.
* Python exceptions are modelled by `Except String`; an exception raised
  while a feature is processed aborts the whole `detect_drift` call, as in
  the source (which has no try/except around the per-feature tests).
-/

namespace Sentinel

/-- A scalar cell of a tabular dataset: a number or a text label. -/
inductive Scalar where
  | num (q : ℚ)
  | str (s : String)
deriving DecidableEq

/-- Column dtype at the granularity `_detect_categorical_features` inspects:
the source tests `dtype in ['object', 'category']`; every other dtype
(int/float/bool) is grouped as `numeric`. -/
inductive Dtype where
  | numeric
  | object
  | category
deriving DecidableEq

/-- A pandas Series: a dtype tag plus cells, `none` being a missing value. -/
structure Column where
  dtype : Dtype
  values : List (Option Scalar)
deriving DecidableEq

/-- A DataFrame: an ordered list of named columns. -/
abbrev DataFrame := List (String × Column)

/-- The column labels of a DataFrame, in order (`df.columns`). -/
def colNames (df : DataFrame) : List String := df.map Prod.fst

/-- `df[feature]`: look a column up by name; `none` models pandas' KeyError. -/
def lookupCol : DataFrame → String → Option Column
  | [], _ => none
  | (n, c) :: rest, f => if n = f then some c else lookupCol rest f

/-- `Series.dropna()`: the non-missing cells of a column, in order. -/
def dropna (c : Column) : List Scalar := c.values.filterMap id

/-- The numeric values of a list of scalars.  In pandas a numeric-dtype
column holds only numbers, so on the columns the continuous tests actually
receive this is the identity on the non-missing data. -/
def asNums (xs : List Scalar) : List ℚ :=
  xs.filterMap (fun v => match v with | .num q => some q | .str _ => none)

/-- `Series.nunique()`: the number of distinct non-missing values. -/
def nunique (c : Column) : ℕ := (dropna c).dedup.length

/-- `DriftDetector._detect_categorical_features`: a reference column is
categorical when its dtype is `object`/`category`, or else when it has
fewer than 10 distinct non-missing values; traversal is in column order. -/
def detectCategoricalFeatures (rd : DataFrame) : List String :=
  rd.filterMap (fun nc =>
    if nc.2.dtype = Dtype.object ∨ nc.2.dtype = Dtype.category then some nc.1
    else if nunique nc.2 < 10 then some nc.1 else none)

/-- The detector's state after `__init__`: the two datasets, the two
configuration thresholds, and the categorical/continuous feature split. -/
structure DriftDetector where
  referenceData : DataFrame
  productionData : DataFrame
  significanceLevel : ℚ
  psiThreshold : ℚ
  categoricalFeatures : List String
  continuousFeatures : List String

/-- `DriftDetector.__init__`.  The constructor performs no validation of
`significance_level` or `psi_threshold`: it stores them as given.  When no
explicit categorical list is supplied it auto-detects one; the continuous
features are `list(set(columns) - set(categorical))`, whose (unspecified)
Python set iteration order is modelled as first-occurrence column order. -/
def mkDetector (referenceData productionData : DataFrame)
    (categoricalFeatures : Option (List String))
    (significanceLevel psiThreshold : ℚ) : DriftDetector :=
  let cat := match categoricalFeatures with
    | none => detectCategoricalFeatures referenceData
    | some l => l
  { referenceData := referenceData
    productionData := productionData
    significanceLevel := significanceLevel
    psiThreshold := psiThreshold
    categoricalFeatures := cat
    continuousFeatures :=
      (colNames referenceData).dedup.filter (fun f => decide (f ∉ cat)) }

/-! ### Kolmogorov–Smirnov test (`scipy.stats.ks_2samp`) -/

/-- Empirical CDF of a sample at `t`: the fraction of points `≤ t`
(`searchsorted(..., side='right') / n` in scipy). -/
def ecdfLe (xs : List ℚ) (t : ℚ) : ℚ :=
  (xs.countP (fun x => decide (x ≤ t)) : ℚ) / (xs.length : ℚ)

/-- The two-sample KS statistic: the sup-distance of the two ECDFs,
evaluated at every point of the concatenated sample. -/
def ksStatistic (xs ys : List ℚ) : ℚ :=
  ((xs ++ ys).map (fun t => |ecdfLe xs t - ecdfLe ys t|)).foldr max 0

/-- Is lattice point `(i, j)` strictly inside the band `|i/n - j/m| < d`?
Scaled by `n*m`: the band bound is `hh = d*n*m`. -/
def insideStrip (n m : ℕ) (hh : ℚ) (i j : ℕ) : Bool :=
  decide (|(i : ℚ) * (m : ℚ) - (j : ℚ) * (n : ℚ)| < hh)

/-- Fuelled recurrence counting the monotone lattice paths from `(0,0)` to
`(i,j)` all of whose points stay strictly inside the band; fuel `i + j + 1`
is exactly sufficient, so the `0`-fuel branch is unreachable from
`pathsInside` (the fuel only makes the recursion structural). -/
def pathsInsideFuel (n m : ℕ) (hh : ℚ) : ℕ → ℕ → ℕ → ℕ
  | 0, _, _ => 0
  | _+1, 0, 0 => if insideStrip n m hh 0 0 then 1 else 0
  | fuel+1, i+1, 0 => if insideStrip n m hh (i+1) 0 then pathsInsideFuel n m hh fuel i 0 else 0
  | fuel+1, 0, j+1 => if insideStrip n m hh 0 (j+1) then pathsInsideFuel n m hh fuel 0 j else 0
  | fuel+1, i+1, j+1 => if insideStrip n m hh (i+1) (j+1) then
      pathsInsideFuel n m hh fuel (i+1) j + pathsInsideFuel n m hh fuel i (j+1) else 0

/-- Number of monotone lattice paths from `(0,0)` to `(i,j)` staying
strictly inside the band (scipy's exact two-sided method counts the
complement: paths whose sup-deviation reaches the observed statistic). -/
def pathsInside (n m : ℕ) (hh : ℚ) (i j : ℕ) : ℕ :=
  pathsInsideFuel n m hh (i + j + 1) i j

/-- Exact two-sided p-value of the two-sample KS test for sample sizes
`n`, `m` and observed statistic `d`: one minus the fraction of monotone
lattice paths staying strictly inside the band, clipped to `[0,1]` as in
scipy. -/
def ksPValue (n m : ℕ) (d : ℚ) : ℚ :=
  max 0 (min 1 (1 - (pathsInside n m (d * (n : ℚ) * (m : ℚ)) n m : ℚ) /
    (((n + m).choose n : ℕ) : ℚ)))

/-- The dictionary returned by `DriftDetector.ks_test`. -/
structure KSResult where
  statistic : ℚ
  pValue : ℚ
  driftDetected : Bool
deriving DecidableEq

/-- `ks_2samp` plus the detector's drift flag `p_value < significance_level`. -/
def ksTestCore (xs ys : List ℚ) (alpha : ℚ) : KSResult :=
  let d := ksStatistic xs ys
  let p := ksPValue xs.length ys.length d
  { statistic := d, pValue := p, driftDetected := decide (p < alpha) }

/-! ### PSI (`DriftDetector.calculate_psi`) -/

/-- Insertion sort of rationals (`np.percentile` sorts its input). -/
def sortQ (xs : List ℚ) : List ℚ := List.insertionSort (· ≤ ·) xs

/-- `np.percentile(xs, q)` with the default linear interpolation:
with sorted data `a₀ … a_{n−1}`, position `h = q·(n−1)/100`, the result is
`a_⌊h⌋ + (h−⌊h⌋)·(a_{⌊h⌋+1} − a_⌊h⌋)` (upper index clipped to `n−1`). -/
def percentile (xs : List ℚ) (q : ℚ) : ℚ :=
  let s := sortQ xs
  let n := s.length
  let h : ℚ := q * ((n : ℚ) - 1) / 100
  let i : ℕ := (⌊h⌋).toNat
  let lo := s.getD i 0
  let hi := s.getD (min (i + 1) (n - 1)) 0
  lo + (h - (i : ℚ)) * (hi - lo)

/-- `np.linspace lo hi (steps+1)`: `steps+1` evenly spaced points. -/
def linspaceQ (lo hi : ℚ) (steps : ℕ) : List ℚ :=
  (List.range (steps + 1)).map (fun (i : ℕ) => lo + (hi - lo) * (i : ℚ) / (steps : ℚ))

/-- `np.unique`: sort ascending and remove duplicates. -/
def npUnique (xs : List ℚ) : List ℚ := (sortQ xs).dedup

/-- The deduplicated PSI bin edges: the `0, 100/bins, …, 100`-th percentiles
of the reference data, passed through `np.unique`. -/
def psiBreakpoints (xs : List ℚ) (bins : ℕ) : List ℚ :=
  npUnique ((linspaceQ 0 100 bins).map (percentile xs))

/-- `np.histogram(xs, bins := edges)`: with `L` edges there are `L−1` bins;
bin `i` is the half-open interval `[eᵢ, eᵢ₊₁)` except the last bin, which is
closed.  With fewer than two edges there are no bins and no counts. -/
def histogram (xs : List ℚ) (edges : List ℚ) : List ℕ :=
  (List.range (edges.length - 1)).map (fun i =>
    if i + 2 = edges.length then
      xs.countP (fun x => decide (edges.getD i 0 ≤ x) && decide (x ≤ edges.getD (i + 1) 0))
    else
      xs.countP (fun x => decide (edges.getD i 0 ≤ x) && decide (x < edges.getD (i + 1) 0)))

/-- Per-bin fractional share: `counts / total`. -/
def shares (counts : List ℕ) (total : ℕ) : List ℚ :=
  counts.map (fun (c : ℕ) => (c : ℚ) / (total : ℚ))

/-- `np.where(p == 0, 0.0001, p)`: clamp a zero share to `1/10000`. -/
def clampZero (x : ℚ) : ℚ := if x = 0 then 1 / 10000 else x

/-- `Σ (prod_share − ref_share) · ln(prod_share / ref_share)` over the bins
(the zip of the two clamped share lists, which numpy evaluates pointwise). -/
noncomputable def psiSum (refP prodP : List ℚ) : ℝ :=
  ((refP.zip prodP).map
    (fun rp => ((rp.2 : ℝ) - (rp.1 : ℝ)) * Real.log ((rp.2 : ℝ) / (rp.1 : ℝ)))).sum

/-- The dictionary returned by `DriftDetector.calculate_psi`. -/
structure PSIResult where
  psiValue : ℝ
  driftDetected : Bool

/-- Truth value of a (classically decided) proposition, used for the drift
flags whose comparisons involve real numbers. -/
noncomputable def pdec (p : Prop) : Bool := @decide p (Classical.propDecidable p)

/-- The body of `calculate_psi` after the two `dropna` calls, including the
drift flag `psi >= psi_threshold`. -/
noncomputable def psiCore (xs ys : List ℚ) (bins : ℕ) (threshold : ℚ) : PSIResult :=
  let edges := psiBreakpoints xs bins
  let refP := (shares (histogram xs edges) xs.length).map clampZero
  let prodP := (shares (histogram ys edges) ys.length).map clampZero
  let psi := psiSum refP prodP
  { psiValue := psi, driftDetected := pdec ((threshold : ℝ) ≤ psi) }

/-! ### Chi-square test (`DriftDetector.chi_square_test`,
`scipy.stats.chi2_contingency`) -/

/-- The union of the categories observed in either dataset
(`set(ref.unique()) | set(prod.unique())`; the unspecified Python set
iteration order is modelled as first-dataset-then-second order). -/
def chiCategories (ref prod : List Scalar) : List Scalar := (ref ++ prod).dedup

/-- One column of the 2×K contingency table per category: the raw count in
the reference data and in the production data (`value_counts().get(cat, 0)`). -/
def contingencyTable (ref prod : List Scalar) : List (ℕ × ℕ) :=
  (chiCategories ref prod).map (fun c => (ref.count c, prod.count c))

/-- An expected frequency of the independence model:
`row_total * column_total / grand_total`. -/
def expectedFreq (rowSum colSum total : ℕ) : ℚ :=
  ((rowSum : ℚ) * (colSum : ℚ)) / (total : ℚ)

/-- One cell's contribution `(observed − expected)² / expected`. -/
def chiTerm (obs : ℕ) (e : ℚ) : ℚ := ((obs : ℚ) - e) ^ 2 / e

/-- One cell's Yates-corrected contribution: the difference magnitude is
reduced by 1/2, but never past zero (scipy >= 1.7). -/
def chiTermYates (obs : ℕ) (e : ℚ) : ℚ := (max (|(obs : ℚ) - e| - 1 / 2) 0) ^ 2 / e

/-- The chi-square survival function `P(X ≥ x)` for `X ~ χ²(dof)`, i.e.
`scipy.stats.chi2.sf`: `1` at or below the lower support bound `0`, and the
normalised upper tail of the density `t^{dof/2−1}·e^{−t/2}` above it. -/
noncomputable def chi2sf (x : ℚ) (dof : ℕ) : ℝ :=
  if x ≤ 0 then 1
  else 1 - (∫ t in Set.Ioc (0 : ℝ) (x : ℝ), t ^ ((dof : ℝ) / 2 - 1) * Real.exp (-t / 2)) /
    (∫ t in Set.Ioi (0 : ℝ), t ^ ((dof : ℝ) / 2 - 1) * Real.exp (-t / 2))

/-- `scipy.stats.chi2_contingency` on a 2×K table given by its K columns:
errors on an empty table or a zero expected frequency; degrees of freedom
`K − 1`; `(0, 1)` when `dof = 0`; Yates' correction when `dof = 1`. -/
noncomputable def chi2Contingency (table : List (ℕ × ℕ)) : Except String (ℚ × ℝ) :=
  let r1 := (table.map Prod.fst).sum
  let r2 := (table.map Prod.snd).sum
  let n := r1 + r2
  if table.length = 0 then Except.error "zero-size table" else
  if table.any (fun p => decide (expectedFreq r1 (p.1 + p.2) n = 0) ||
      decide (expectedFreq r2 (p.1 + p.2) n = 0)) then
    Except.error "The internally computed table of expected frequencies has a zero element"
  else
    let dof := table.length - 1
    if dof = 0 then Except.ok (0, 1) else
    let stat : ℚ :=
      if dof = 1 then
        (table.map (fun p => chiTermYates p.1 (expectedFreq r1 (p.1 + p.2) n) +
          chiTermYates p.2 (expectedFreq r2 (p.1 + p.2) n))).sum
      else
        (table.map (fun p => chiTerm p.1 (expectedFreq r1 (p.1 + p.2) n) +
          chiTerm p.2 (expectedFreq r2 (p.1 + p.2) n))).sum
    Except.ok (stat, chi2sf stat dof)

/-- The dictionary returned by `DriftDetector.chi_square_test`. -/
structure ChiResult where
  statistic : ℚ
  pValue : ℝ
  driftDetected : Bool

/-! ### The detector's three test methods -/

/-- `DriftDetector.ks_test`: drop missing values on each side independently
and run `ks_2samp`, which raises on empty data. -/
def ksTest (d : DriftDetector) (feature : String) : Except String KSResult :=
  match lookupCol d.referenceData feature, lookupCol d.productionData feature with
  | some rc, some pc =>
    let refData := asNums (dropna rc)
    let prodData := asNums (dropna pc)
    if refData.length = 0 ∨ prodData.length = 0 then
      Except.error "Data passed to ks_2samp must not be empty"
    else Except.ok (ksTestCore refData prodData d.significanceLevel)
  | _, _ => Except.error "KeyError"

/-- `DriftDetector.calculate_psi`: drop missing values, then bin; the
percentile computation raises on an empty reference sample.  (On an empty
production sample numpy would produce NaN shares under suppressed warnings;
the exact-arithmetic model is faithful on nonempty data, which is the
domain every claim about PSI quantifies over.) -/
noncomputable def calculatePsi (d : DriftDetector) (feature : String) (bins : ℕ) :
    Except String PSIResult :=
  match lookupCol d.referenceData feature, lookupCol d.productionData feature with
  | some rc, some pc =>
    let refData := asNums (dropna rc)
    let prodData := asNums (dropna pc)
    if refData.length = 0 then Except.error "zero-size array in percentile"
    else Except.ok (psiCore refData prodData bins d.psiThreshold)
  | _, _ => Except.error "KeyError"

/-- `DriftDetector.chi_square_test`: build the contingency table over the
union of observed categories and run `chi2_contingency`; the drift flag is
`p_value < significance_level`. -/
noncomputable def chiSquareTest (d : DriftDetector) (feature : String) :
    Except String ChiResult :=
  match lookupCol d.referenceData feature, lookupCol d.productionData feature with
  | some rc, some pc =>
    match chi2Contingency (contingencyTable (dropna rc) (dropna pc)) with
    | Except.error e => Except.error e
    | Except.ok sp =>
      Except.ok { statistic := sp.1, pValue := sp.2,
                  driftDetected := pdec (sp.2 < (d.significanceLevel : ℝ)) }
  | _, _ => Except.error "KeyError"

/-! ### `DriftDetector.detect_drift` -/

/-- One entry of the report's `feature_details` mapping. -/
inductive FeatureDetail where
  | continuous (ksResult : KSResult) (psiResult : PSIResult) (driftDetected : Bool)
  | categorical (chiResult : ChiResult) (driftDetected : Bool)

/-- The `'drift_detected'` field of a feature's detail entry. -/
def FeatureDetail.drift : FeatureDetail → Bool
  | .continuous _ _ b => b
  | .categorical _ b => b

/-- The `results` dictionary of `detect_drift`. -/
structure DriftReport where
  driftDetected : Bool
  featuresWithDrift : List String
  featureDetails : List (String × FeatureDetail)

/-- The initial accumulator of `detect_drift`. -/
def emptyReport : DriftReport :=
  { driftDetected := false, featuresWithDrift := [], featureDetails := [] }

/-- The first loop of `detect_drift`: each continuous feature is tested with
both KS and PSI, its detail is appended, and on drift the feature name is
appended and the overall flag set. -/
noncomputable def goCont (d : DriftDetector) : List String → DriftReport → Except String DriftReport
  | [], acc => Except.ok acc
  | f :: fs, acc =>
    match ksTest d f with
    | Except.error e => Except.error e
    | Except.ok k =>
      match calculatePsi d f 10 with
      | Except.error e => Except.error e
      | Except.ok p =>
        let drift := k.driftDetected || p.driftDetected
        goCont d fs
          { driftDetected := acc.driftDetected || drift
            featuresWithDrift := acc.featuresWithDrift ++ (if drift then [f] else [])
            featureDetails := acc.featureDetails ++ [(f, FeatureDetail.continuous k p drift)] }

/-- The second loop of `detect_drift`: each categorical feature is tested
with chi-square. -/
noncomputable def goCat (d : DriftDetector) : List String → DriftReport → Except String DriftReport
  | [], acc => Except.ok acc
  | f :: fs, acc =>
    match chiSquareTest d f with
    | Except.error e => Except.error e
    | Except.ok ch =>
      goCat d fs
        { driftDetected := acc.driftDetected || ch.driftDetected
          featuresWithDrift := acc.featuresWithDrift ++ (if ch.driftDetected then [f] else [])
          featureDetails := acc.featureDetails ++ [(f, FeatureDetail.categorical ch ch.driftDetected)] }

/-- `DriftDetector.detect_drift`: continuous features first, then
categorical ones; an exception in any feature aborts the whole call. -/
noncomputable def detectDrift (d : DriftDetector) : Except String DriftReport :=
  match goCont d d.continuousFeatures emptyReport with
  | Except.error e => Except.error e
  | Except.ok r => goCat d d.categoricalFeatures r

/-! ### Structural lemmas about the aggregation loops -/

/-- `isOk` characterisation for `Except`. -/
theorem exceptIsOk_iff {ε α : Type} (e : Except ε α) : e.isOk = true ↔ ∃ a, e = Except.ok a := by
  cases e <;> simp [Except.isOk, Except.toBool]

/-- Characterisation of a successful run of the continuous-feature loop:
the accumulated report grows by one entry per feature, in traversal order,
with the drifted names appended in the same order and the overall flag
OR-ed. -/
theorem goCont_spec (d : DriftDetector) :
    ∀ (fs : List String) (acc r : DriftReport), goCont d fs acc = Except.ok r →
    ∃ ents : List (String × FeatureDetail),
      ents.map Prod.fst = fs ∧
      (∀ e ∈ ents, ∃ k q, ksTest d e.1 = Except.ok k ∧ calculatePsi d e.1 10 = Except.ok q ∧
        e.2 = FeatureDetail.continuous k q (k.driftDetected || q.driftDetected)) ∧
      r.featureDetails = acc.featureDetails ++ ents ∧
      r.featuresWithDrift = acc.featuresWithDrift ++
        (ents.filter (fun e => e.2.drift)).map Prod.fst ∧
      r.driftDetected = (acc.driftDetected || ents.any (fun e => e.2.drift)) := by
  intro fs
  induction fs with
  | nil =>
    intro acc r h
    simp only [goCont] at h
    cases h
    exact ⟨[], by simp⟩
  | cons f fs ih =>
    intro acc r h
    simp only [goCont] at h
    cases hk : ksTest d f with
    | error e => rw [hk] at h; cases h
    | ok k =>
      rw [hk] at h
      cases hq : calculatePsi d f 10 with
      | error e => rw [hq] at h; cases h
      | ok q =>
        rw [hq] at h
        obtain ⟨ents, hmap, hdet, hfd, hfwd, hdd⟩ := ih _ _ h
        refine ⟨(f, FeatureDetail.continuous k q (k.driftDetected || q.driftDetected)) :: ents,
          ?_, ?_, ?_, ?_, ?_⟩
        · simp [hmap]
        · intro e he
          rcases List.mem_cons.1 he with rfl | he'
          · exact ⟨k, q, hk, hq, rfl⟩
          · exact hdet e he'
        · simpa [List.append_assoc] using hfd
        · rw [hfwd]
          simp only [List.filter_cons]
          cases hb : k.driftDetected || q.driftDetected <;>
            simp [FeatureDetail.drift, hb, List.append_assoc]
        · rw [hdd]; simp [FeatureDetail.drift, Bool.or_assoc]

/-- Characterisation of a successful run of the categorical-feature loop. -/
theorem goCat_spec (d : DriftDetector) :
    ∀ (fs : List String) (acc r : DriftReport), goCat d fs acc = Except.ok r →
    ∃ ents : List (String × FeatureDetail),
      ents.map Prod.fst = fs ∧
      (∀ e ∈ ents, ∃ ch, chiSquareTest d e.1 = Except.ok ch ∧
        e.2 = FeatureDetail.categorical ch ch.driftDetected) ∧
      r.featureDetails = acc.featureDetails ++ ents ∧
      r.featuresWithDrift = acc.featuresWithDrift ++
        (ents.filter (fun e => e.2.drift)).map Prod.fst ∧
      r.driftDetected = (acc.driftDetected || ents.any (fun e => e.2.drift)) := by
  intro fs
  induction fs with
  | nil =>
    intro acc r h
    simp only [goCat] at h
    cases h
    exact ⟨[], by simp⟩
  | cons f fs ih =>
    intro acc r h
    simp only [goCat] at h
    cases hc : chiSquareTest d f with
    | error e => rw [hc] at h; cases h
    | ok ch =>
      rw [hc] at h
      obtain ⟨ents, hmap, hdet, hfd, hfwd, hdd⟩ := ih _ _ h
      refine ⟨(f, FeatureDetail.categorical ch ch.driftDetected) :: ents, ?_, ?_, ?_, ?_, ?_⟩
      · simp [hmap]
      · intro e he
        rcases List.mem_cons.1 he with rfl | he'
        · exact ⟨ch, hc, rfl⟩
        · exact hdet e he'
      · simpa [List.append_assoc] using hfd
      · rw [hfwd]
        simp only [List.filter_cons]
        cases hb : ch.driftDetected <;>
          simp [FeatureDetail.drift, hb, List.append_assoc]
      · rw [hdd]; simp [FeatureDetail.drift, Bool.or_assoc]

/-- The continuous loop succeeds whenever every feature's two tests do. -/
theorem goCont_total (d : DriftDetector) :
    ∀ (fs : List String) (acc : DriftReport),
      (∀ f ∈ fs, (∃ k, ksTest d f = Except.ok k) ∧ (∃ q, calculatePsi d f 10 = Except.ok q)) →
      (goCont d fs acc).isOk = true := by
  intro fs
  induction fs with
  | nil => intro acc _; rfl
  | cons f fs ih =>
    intro acc h
    obtain ⟨⟨k, hk⟩, ⟨q, hq⟩⟩ := h f (List.mem_cons_self f fs)
    simp only [goCont]
    rw [hk, hq]
    exact ih _ (fun g hg => h g (List.mem_cons_of_mem f hg))

/-- The categorical loop succeeds whenever every feature's test does. -/
theorem goCat_total (d : DriftDetector) :
    ∀ (fs : List String) (acc : DriftReport),
      (∀ f ∈ fs, ∃ ch, chiSquareTest d f = Except.ok ch) →
      (goCat d fs acc).isOk = true := by
  intro fs
  induction fs with
  | nil => intro acc _; rfl
  | cons f fs ih =>
    intro acc h
    obtain ⟨ch, hc⟩ := h f (List.mem_cons_self f fs)
    simp only [goCat]
    rw [hc]
    exact ih _ (fun g hg => h g (List.mem_cons_of_mem f hg))

/-- Full decomposition of a successful `detect_drift` run into the entries
contributed by the continuous and the categorical traversal. -/
theorem detectDrift_parts (d : DriftDetector) (r : DriftReport)
    (h : detectDrift d = Except.ok r) :
    ∃ entsC entsK : List (String × FeatureDetail),
      entsC.map Prod.fst = d.continuousFeatures ∧
      entsK.map Prod.fst = d.categoricalFeatures ∧
      (∀ e ∈ entsC, ∃ k q, ksTest d e.1 = Except.ok k ∧ calculatePsi d e.1 10 = Except.ok q ∧
        e.2 = FeatureDetail.continuous k q (k.driftDetected || q.driftDetected)) ∧
      (∀ e ∈ entsK, ∃ ch, chiSquareTest d e.1 = Except.ok ch ∧
        e.2 = FeatureDetail.categorical ch ch.driftDetected) ∧
      r.featureDetails = entsC ++ entsK ∧
      r.featuresWithDrift = ((entsC ++ entsK).filter (fun e => e.2.drift)).map Prod.fst ∧
      r.driftDetected = (entsC ++ entsK).any (fun e => e.2.drift) := by
  unfold detectDrift at h
  cases h1 : goCont d d.continuousFeatures emptyReport with
  | error e => rw [h1] at h; cases h
  | ok r1 =>
    rw [h1] at h
    obtain ⟨entsC, hCmap, hCdet, hCfd, hCfwd, hCdd⟩ := goCont_spec d _ _ _ h1
    obtain ⟨entsK, hKmap, hKdet, hKfd, hKfwd, hKdd⟩ := goCat_spec d _ _ _ h
    refine ⟨entsC, entsK, hCmap, hKmap, hCdet, hKdet, ?_, ?_, ?_⟩
    · rw [hKfd, hCfd]; simp [emptyReport]
    · rw [hKfwd, hCfwd]; simp [emptyReport, List.filter_append]
    · rw [hKdd, hCdd]; simp [emptyReport, List.any_append, Bool.or_assoc]

/-- `detect_drift` succeeds whenever every per-feature test does. -/
theorem detectDrift_total (d : DriftDetector)
    (hC : ∀ f ∈ d.continuousFeatures,
      (∃ k, ksTest d f = Except.ok k) ∧ (∃ q, calculatePsi d f 10 = Except.ok q))
    (hK : ∀ f ∈ d.categoricalFeatures, ∃ ch, chiSquareTest d f = Except.ok ch) :
    ∃ r, detectDrift d = Except.ok r := by
  unfold detectDrift
  obtain ⟨r1, h1⟩ := (exceptIsOk_iff _).1 (goCont_total d _ emptyReport hC)
  rw [h1]
  exact (exceptIsOk_iff _).1 (goCat_total d _ r1 hK)

/-! ### KS lemmas -/

theorem foldr_max_zero (l : List ℚ) (h : ∀ x ∈ l, x = 0) : l.foldr max 0 = 0 := by
  induction l with
  | nil => rfl
  | cons a l ih =>
    rw [List.foldr_cons, h a (List.mem_cons_self a l),
      ih (fun x hx => h x (List.mem_cons_of_mem a hx))]
    simp

/-- On two identical samples the KS statistic is `0`. -/
theorem ksStatistic_self (xs : List ℚ) : ksStatistic xs xs = 0 := by
  apply foldr_max_zero
  intro x hx
  obtain ⟨t, _, rfl⟩ := List.mem_map.1 hx
  simp

theorem insideStrip_false (n m : ℕ) (hh : ℚ) (hhh : hh ≤ 0) (i j : ℕ) :
    insideStrip n m hh i j = false := by
  simp only [insideStrip, decide_eq_false_iff_not]
  exact not_lt.2 (hhh.trans (abs_nonneg _))

theorem pathsInsideFuel_nonpos (n m : ℕ) (hh : ℚ) (hhh : hh ≤ 0) (fuel i j : ℕ) :
    pathsInsideFuel n m hh fuel i j = 0 := by
  cases fuel <;> cases i <;> cases j <;>
    simp [pathsInsideFuel, insideStrip_false n m hh hhh]

/-- With a non-positive band bound no lattice path stays strictly inside. -/
theorem pathsInside_nonpos (n m : ℕ) (hh : ℚ) (hhh : hh ≤ 0) (i j : ℕ) :
    pathsInside n m hh i j = 0 :=
  pathsInsideFuel_nonpos n m hh hhh _ i j

/-- At observed statistic `0` the exact KS p-value is `1`. -/
theorem ksPValue_zero (n m : ℕ) : ksPValue n m 0 = 1 := by
  unfold ksPValue
  rw [pathsInside_nonpos n m _ (by simp)]
  norm_num

/-- `ks_2samp` on two identical samples: statistic `0`, p-value `1`, and no
drift flag as soon as the significance level is at most `1`. -/
theorem ksTestCore_self (xs : List ℚ) (alpha : ℚ) (halpha : alpha ≤ 1) :
    ksTestCore xs xs alpha = { statistic := 0, pValue := 1, driftDetected := false } := by
  simp only [ksTestCore, ksStatistic_self, ksPValue_zero]
  rw [decide_eq_false (not_lt.2 halpha)]

/-- `DriftDetector.ks_test` on a detector whose production data is its
reference data returns the no-drift result for every nonempty feature. -/
theorem ksTest_self (d : DriftDetector) (f : String) (c : Column)
    (hpr : d.productionData = d.referenceData)
    (hc : lookupCol d.referenceData f = some c)
    (hne : asNums (dropna c) ≠ [])
    (halpha : d.significanceLevel ≤ 1) :
    ksTest d f = Except.ok { statistic := 0, pValue := 1, driftDetected := false } := by
  simp only [ksTest, hpr, hc]
  rw [if_neg (by simp [List.length_eq_zero, hne])]
  rw [ksTestCore_self _ _ halpha]

/-! ### PSI lemmas -/

theorem zip_self_eq {α : Type} (l : List α) : ∀ rp ∈ l.zip l, rp.1 = rp.2 := by
  induction l with
  | nil => intro rp h; cases h
  | cons a l ih =>
    intro rp h
    rw [List.zip_cons_cons] at h
    rcases List.mem_cons.1 h with rfl | h'
    · rfl
    · exact ih rp h'

/-- The PSI sum of two identical share lists is `0`. -/
theorem psiSum_self (l : List ℚ) : psiSum l l = 0 := by
  apply List.sum_eq_zero
  intro x hx
  obtain ⟨rp, hrp, rfl⟩ := List.mem_map.1 hx
  rw [zip_self_eq l rp hrp]
  simp

theorem pdec_eq_true_iff (p : Prop) : pdec p = true ↔ p := by
  simp [pdec]

theorem pdec_eq_false_iff (p : Prop) : pdec p = false ↔ ¬p := by
  simp [pdec]

/-- `calculate_psi`'s core on two identical samples: PSI `0` and no drift
flag as soon as the threshold is positive. -/
theorem psiCore_self (xs : List ℚ) (bins : ℕ) (threshold : ℚ) (hθ : 0 < threshold) :
    (psiCore xs xs bins threshold).psiValue = 0 ∧
    (psiCore xs xs bins threshold).driftDetected = false := by
  simp only [psiCore]
  refine ⟨psiSum_self _, ?_⟩
  rw [pdec_eq_false_iff, psiSum_self]
  exact not_le.2 (by exact_mod_cast hθ)

/-! ### Chi-square lemmas -/

/-- The category list of the contingency table is exactly the union of the
categories observed in either dataset. -/
theorem mem_chiCategories (ref prod : List Scalar) (c : Scalar) :
    c ∈ chiCategories ref prod ↔ c ∈ ref ∨ c ∈ prod := by
  simp [chiCategories, List.mem_dedup]

theorem chiCategories_ne_nil (ref prod : List Scalar) (h : ref ≠ []) :
    chiCategories ref prod ≠ [] := by
  obtain ⟨a, ha⟩ := List.exists_mem_of_ne_nil ref h
  intro hnil
  have hmem := (mem_chiCategories ref prod a).2 (Or.inl ha)
  rw [hnil] at hmem
  cases hmem

theorem contingencyTable_ne_nil (ref prod : List Scalar) (h : ref ≠ []) :
    contingencyTable ref prod ≠ [] := by
  intro hnil
  exact chiCategories_ne_nil ref prod h (List.map_eq_nil_iff.1 hnil)

/-- On identical datasets every column of the contingency table has equal,
positive reference and production counts. -/
theorem contingencyTable_self (xs : List Scalar) :
    ∀ pr ∈ contingencyTable xs xs, pr.1 = pr.2 ∧ 1 ≤ pr.1 := by
  intro pr hpr
  obtain ⟨c, hc, rfl⟩ := List.mem_map.1 hpr
  refine ⟨rfl, ?_⟩
  have hcx : c ∈ xs := by
    rcases (mem_chiCategories xs xs c).1 hc with h | h <;> exact h
  exact List.count_pos_iff.2 hcx

theorem expectedFreq_pos (r c n : ℕ) (hr : 1 ≤ r) (hc : 1 ≤ c) (hn : 1 ≤ n) :
    0 < expectedFreq r c n := by
  unfold expectedFreq
  have hr' : (0 : ℚ) < (r : ℚ) := by exact_mod_cast hr
  have hc' : (0 : ℚ) < (c : ℚ) := by exact_mod_cast hc
  have hn' : (0 : ℚ) < (n : ℚ) := by exact_mod_cast hn
  exact div_pos (mul_pos hr' hc') hn'

theorem expectedFreq_self (s o : ℕ) (hs : 1 ≤ s) :
    expectedFreq s (o + o) (s + s) = (o : ℚ) := by
  unfold expectedFreq
  have hs' : ((s : ℕ) : ℚ) ≠ 0 := by
    have : (0 : ℚ) < (s : ℚ) := by exact_mod_cast hs
    exact ne_of_gt this
  push_cast
  field_simp
  ring

theorem chiTerm_self (o : ℕ) : chiTerm o (o : ℚ) = 0 := by
  simp [chiTerm]

theorem chiTermYates_self (o : ℕ) : chiTermYates o (o : ℚ) = 0 := by
  unfold chiTermYates
  norm_num

/-- `chi2_contingency` on a table whose two rows are equal and positive:
observed equals expected, so the statistic is `0` and the p-value is `1`
(also in the `dof = 0` special case and the Yates-corrected `dof = 1` case). -/
theorem chi2Contingency_diag (tb : List (ℕ × ℕ)) (hne : tb ≠ [])
    (hprs : ∀ pr ∈ tb, pr.1 = pr.2 ∧ 1 ≤ pr.1) :
    chi2Contingency tb = Except.ok (0, 1) := by
  have hr12 : (tb.map Prod.snd).sum = (tb.map Prod.fst).sum := by
    apply congrArg List.sum
    exact List.map_congr_left (fun pr hpr => ((hprs pr hpr).1).symm)
  have hS : 1 ≤ (tb.map Prod.fst).sum := by
    obtain ⟨pr, hpr⟩ := List.exists_mem_of_ne_nil tb hne
    exact le_trans (hprs pr hpr).2
      (List.le_sum_of_mem (List.mem_map_of_mem Prod.fst hpr))
  have hEF : ∀ pr ∈ tb,
      expectedFreq (tb.map Prod.fst).sum (pr.1 + pr.2)
        ((tb.map Prod.fst).sum + (tb.map Prod.fst).sum) = (pr.1 : ℚ) := by
    intro pr hpr
    have h2 := (hprs pr hpr).1
    rw [← h2]
    exact expectedFreq_self _ _ hS
  simp only [chi2Contingency, hr12]
  rw [if_neg (by simp [List.length_eq_zero, hne])]
  have hany : ¬((tb.any fun p =>
      decide (expectedFreq (tb.map Prod.fst).sum (p.1 + p.2)
        ((tb.map Prod.fst).sum + (tb.map Prod.fst).sum) = 0) ||
      decide (expectedFreq (tb.map Prod.fst).sum (p.1 + p.2)
        ((tb.map Prod.fst).sum + (tb.map Prod.fst).sum) = 0)) = true) := by
    intro h
    obtain ⟨pr, hpr, hp⟩ := List.any_eq_true.1 h
    rw [Bool.or_self, decide_eq_true_eq, hEF pr hpr] at hp
    have : (0 : ℚ) < (pr.1 : ℚ) := by exact_mod_cast (hprs pr hpr).2
    exact absurd hp (ne_of_gt this)
  rw [if_neg hany]
  by_cases hdof : tb.length - 1 = 0
  · rw [if_pos hdof]
  · rw [if_neg hdof]
    have hstat : (if tb.length - 1 = 1 then
        (tb.map fun p => chiTermYates p.1 (expectedFreq (tb.map Prod.fst).sum (p.1 + p.2)
            ((tb.map Prod.fst).sum + (tb.map Prod.fst).sum)) +
          chiTermYates p.2 (expectedFreq (tb.map Prod.fst).sum (p.1 + p.2)
            ((tb.map Prod.fst).sum + (tb.map Prod.fst).sum))).sum
      else
        (tb.map fun p => chiTerm p.1 (expectedFreq (tb.map Prod.fst).sum (p.1 + p.2)
            ((tb.map Prod.fst).sum + (tb.map Prod.fst).sum)) +
          chiTerm p.2 (expectedFreq (tb.map Prod.fst).sum (p.1 + p.2)
            ((tb.map Prod.fst).sum + (tb.map Prod.fst).sum))).sum) = 0 := by
      split
      · apply List.sum_eq_zero
        intro x hx
        obtain ⟨pr, hpr, rfl⟩ := List.mem_map.1 hx
        have h2 := (hprs pr hpr).1
        rw [hEF pr hpr, ← h2, chiTermYates_self]
        simp
      · apply List.sum_eq_zero
        intro x hx
        obtain ⟨pr, hpr, rfl⟩ := List.mem_map.1 hx
        have h2 := (hprs pr hpr).1
        rw [hEF pr hpr, ← h2, chiTerm_self]
        simp
    rw [hstat]
    rw [show chi2sf 0 (tb.length - 1) = 1 from if_pos le_rfl]

/-- `chi_square_test`'s table pipeline on two identical samples gives
statistic `0` and p-value `1`. -/
theorem chi2Contingency_self (xs : List Scalar) (hne : xs ≠ []) :
    chi2Contingency (contingencyTable xs xs) = Except.ok (0, 1) :=
  chi2Contingency_diag _ (contingencyTable_ne_nil xs xs hne) (contingencyTable_self xs)

/-- `DriftDetector.chi_square_test` on a detector whose production data is
its reference data returns the no-drift result for every nonempty feature. -/
theorem chiSquareTest_self (d : DriftDetector) (f : String) (c : Column)
    (hpr : d.productionData = d.referenceData)
    (hc : lookupCol d.referenceData f = some c)
    (hne : dropna c ≠ [])
    (halpha : d.significanceLevel ≤ 1) :
    chiSquareTest d f =
      Except.ok { statistic := 0, pValue := 1, driftDetected := false } := by
  simp only [chiSquareTest, hpr, hc]
  rw [chi2Contingency_self _ hne]
  have hflag : pdec ((1 : ℝ) < (d.significanceLevel : ℝ)) = false := by
    rw [pdec_eq_false_iff]
    exact not_lt.2 (by exact_mod_cast halpha)
  simp [hflag]

/-- `calculate_psi` on a detector whose production data is its reference
data: for every feature with nonempty numeric data it returns PSI `0` with
no drift flag (threshold positive). -/
theorem calculatePsi_self (d : DriftDetector) (f : String) (c : Column)
    (hpr : d.productionData = d.referenceData)
    (hc : lookupCol d.referenceData f = some c)
    (hne : asNums (dropna c) ≠ [])
    (hθ : 0 < d.psiThreshold) :
    calculatePsi d f 10 =
      Except.ok (psiCore (asNums (dropna c)) (asNums (dropna c)) 10 d.psiThreshold) ∧
    (psiCore (asNums (dropna c)) (asNums (dropna c)) 10 d.psiThreshold).psiValue = 0 ∧
    (psiCore (asNums (dropna c)) (asNums (dropna c)) 10 d.psiThreshold).driftDetected = false := by
  refine ⟨?_, psiCore_self _ _ _ hθ⟩
  simp only [calculatePsi, hpr, hc]
  rw [if_neg (by simp [List.length_eq_zero, hne])]

/-- A nonempty reference sample gives a positive reference row sum. -/
theorem contingencyTable_fst_sum_pos (ref prod : List Scalar) (h : ref ≠ []) :
    1 ≤ ((contingencyTable ref prod).map Prod.fst).sum := by
  obtain ⟨a, ha⟩ := List.exists_mem_of_ne_nil ref h
  have hcat : a ∈ chiCategories ref prod := (mem_chiCategories ref prod a).2 (Or.inl ha)
  have hpair : (ref.count a, prod.count a) ∈ contingencyTable ref prod :=
    List.mem_map_of_mem _ hcat
  have hcnt : 1 ≤ ref.count a := List.count_pos_iff.2 ha
  exact le_trans hcnt (List.le_sum_of_mem (List.mem_map_of_mem Prod.fst hpair))

/-- A nonempty production sample gives a positive production row sum. -/
theorem contingencyTable_snd_sum_pos (ref prod : List Scalar) (h : prod ≠ []) :
    1 ≤ ((contingencyTable ref prod).map Prod.snd).sum := by
  obtain ⟨a, ha⟩ := List.exists_mem_of_ne_nil prod h
  have hcat : a ∈ chiCategories ref prod := (mem_chiCategories ref prod a).2 (Or.inr ha)
  have hpair : (ref.count a, prod.count a) ∈ contingencyTable ref prod :=
    List.mem_map_of_mem _ hcat
  have hcnt : 1 ≤ prod.count a := List.count_pos_iff.2 ha
  exact le_trans hcnt (List.le_sum_of_mem (List.mem_map_of_mem Prod.snd hpair))

/-- Every column of the contingency table has a positive column sum: its
category was observed in at least one of the two datasets. -/
theorem contingencyTable_col_pos (ref prod : List Scalar) :
    ∀ pr ∈ contingencyTable ref prod, 1 ≤ pr.1 + pr.2 := by
  intro pr hpr
  obtain ⟨c, hc, rfl⟩ := List.mem_map.1 hpr
  rcases (mem_chiCategories ref prod c).1 hc with h | h
  · have := List.count_pos_iff.2 h
    omega
  · have := List.count_pos_iff.2 h
    omega

/-- `chi2_contingency` does not raise on a nonempty table with positive row
sums and positive column sums: every expected frequency is then positive. -/
theorem chi2Contingency_ok (tb : List (ℕ × ℕ)) (hne : tb ≠ [])
    (h1 : 1 ≤ (tb.map Prod.fst).sum) (h2 : 1 ≤ (tb.map Prod.snd).sum)
    (hcol : ∀ pr ∈ tb, 1 ≤ pr.1 + pr.2) :
    ∃ sp, chi2Contingency tb = Except.ok sp := by
  have hn : 1 ≤ (tb.map Prod.fst).sum + (tb.map Prod.snd).sum :=
    le_trans h1 (Nat.le_add_right _ _)
  simp only [chi2Contingency]
  rw [if_neg (by simp [List.length_eq_zero, hne])]
  have hany : ¬((tb.any fun p =>
      decide (expectedFreq (tb.map Prod.fst).sum (p.1 + p.2)
        ((tb.map Prod.fst).sum + (tb.map Prod.snd).sum) = 0) ||
      decide (expectedFreq (tb.map Prod.snd).sum (p.1 + p.2)
        ((tb.map Prod.fst).sum + (tb.map Prod.snd).sum) = 0)) = true) := by
    intro h
    obtain ⟨pr, hpr, hp⟩ := List.any_eq_true.1 h
    rcases Bool.or_eq_true_iff.1 hp with h0 | h0 <;> rw [decide_eq_true_eq] at h0
    · exact absurd h0 (ne_of_gt (expectedFreq_pos _ _ _ h1 (hcol pr hpr) hn))
    · exact absurd h0 (ne_of_gt (expectedFreq_pos _ _ _ h2 (hcol pr hpr) hn))
  rw [if_neg hany]
  by_cases hdof : tb.length - 1 = 0
  · rw [if_pos hdof]
    exact ⟨_, rfl⟩
  · rw [if_neg hdof]
    exact ⟨_, rfl⟩

/-- `chi_square_test` does not raise when both samples are nonempty after
dropping missing values. -/
theorem chiSquareTest_ok (d : DriftDetector) (f : String) (rc pc : Column)
    (hrc : lookupCol d.referenceData f = some rc)
    (hpc : lookupCol d.productionData f = some pc)
    (h1 : dropna rc ≠ []) (h2 : dropna pc ≠ []) :
    ∃ ch, chiSquareTest d f = Except.ok ch := by
  simp only [chiSquareTest, hrc, hpc]
  obtain ⟨sp, hsp⟩ := chi2Contingency_ok (contingencyTable (dropna rc) (dropna pc))
    (contingencyTable_ne_nil _ _ h1)
    (contingencyTable_fst_sum_pos _ _ h1)
    (contingencyTable_snd_sum_pos _ _ h2)
    (contingencyTable_col_pos _ _)
  rw [hsp]
  exact ⟨_, rfl⟩

/-! ### PSI nonnegativity -/

theorem psiTerm_nonneg (r p : ℝ) (hr : 0 < r) (hp : 0 < p) :
    0 ≤ (p - r) * Real.log (p / r) := by
  rcases le_total r p with h | h
  · exact mul_nonneg (sub_nonneg.2 h) (Real.log_nonneg ((one_le_div hr).2 h))
  · have h1 : p - r ≤ 0 := sub_nonpos.2 h
    have h2 : Real.log (p / r) ≤ 0 :=
      Real.log_nonpos (by positivity) ((div_le_one hr).2 h)
    have hm := mul_nonneg (neg_nonneg.2 h1) (neg_nonneg.2 h2)
    rwa [neg_mul_neg] at hm

theorem clampZero_pos (x : ℚ) (hx : 0 ≤ x) : 0 < clampZero x := by
  unfold clampZero
  split
  · norm_num
  · rename_i h
    exact lt_of_le_of_ne hx (Ne.symm h)

theorem shares_nonneg (counts : List ℕ) (total : ℕ) :
    ∀ x ∈ shares counts total, 0 ≤ x := by
  intro x hx
  obtain ⟨c, _, rfl⟩ := List.mem_map.1 hx
  exact div_nonneg (by positivity) (by positivity)

/-- Each PSI bin term is nonnegative once both shares are positive, so the
whole sum is. -/
theorem psiSum_nonneg (refP prodP : List ℚ)
    (h1 : ∀ x ∈ refP, 0 < x) (h2 : ∀ x ∈ prodP, 0 < x) :
    0 ≤ psiSum refP prodP := by
  apply List.sum_nonneg
  intro x hx
  obtain ⟨rp, hrp, rfl⟩ := List.mem_map.1 hx
  obtain ⟨a, b⟩ := rp
  obtain ⟨hm1, hm2⟩ := List.of_mem_zip hrp
  have hr : (0 : ℝ) < (a : ℝ) := by exact_mod_cast h1 a hm1
  have hp : (0 : ℝ) < (b : ℝ) := by exact_mod_cast h2 b hm2
  exact psiTerm_nonneg _ _ hr hp

/-- The PSI value computed by `calculate_psi`'s core is always `≥ 0`. -/
theorem psiCore_nonneg (xs ys : List ℚ) (bins : ℕ) (threshold : ℚ) :
    0 ≤ (psiCore xs ys bins threshold).psiValue := by
  simp only [psiCore]
  apply psiSum_nonneg
  · intro x hx
    obtain ⟨y, hy, rfl⟩ := List.mem_map.1 hx
    exact clampZero_pos y (shares_nonneg _ _ y hy)
  · intro x hx
    obtain ⟨y, hy, rfl⟩ := List.mem_map.1 hx
    exact clampZero_pos y (shares_nonneg _ _ y hy)

/-! ### Degenerate (constant) reference data for PSI -/

theorem getD_of_all (v : ℚ) :
    ∀ (l : List ℚ) (i : ℕ), (∀ x ∈ l, x = v) → i < l.length → l.getD i 0 = v := by
  intro l
  induction l with
  | nil => intro i _ hi; cases hi
  | cons a l ih =>
    intro i h hi
    cases i with
    | zero => exact h a (List.mem_cons_self a l)
    | succ i =>
      exact ih i (fun x hx => h x (List.mem_cons_of_mem a hx)) (Nat.lt_of_succ_lt_succ hi)

/-- `np.percentile` of a constant sample is that constant, for any
percentile rank in `[0, 100]`. -/
theorem percentile_const (xs : List ℚ) (v q : ℚ) (hne : xs ≠ [])
    (hall : ∀ x ∈ xs, x = v) (_h0 : 0 ≤ q) (h1 : q ≤ 100) :
    percentile xs q = v := by
  have hsall : ∀ x ∈ sortQ xs, x = v := by
    intro x hx
    exact hall x (by simpa [sortQ, List.mem_insertionSort] using hx)
  have hlen : 1 ≤ (sortQ xs).length := by
    have h0' : xs.length ≠ 0 := by simpa [List.length_eq_zero] using hne
    simp only [sortQ, List.length_insertionSort]
    omega
  simp only [percentile]
  set s := sortQ xs with hs
  set hq : ℚ := q * ((s.length : ℚ) - 1) / 100 with hhq
  have hn1 : (0 : ℚ) ≤ (s.length : ℚ) - 1 := by
    have hl : (1 : ℚ) ≤ (s.length : ℚ) := by exact_mod_cast hlen
    linarith
  have hub : hq ≤ (s.length : ℚ) - 1 := by
    rw [hhq, div_le_iff₀ (by norm_num : (0 : ℚ) < 100)]
    nlinarith
  have hfl : ⌊hq⌋ ≤ (s.length : ℤ) - 1 := by
    have h2 : ((s.length : ℚ) - 1) = (((s.length : ℤ) - 1 : ℤ) : ℚ) := by push_cast; ring
    calc ⌊hq⌋ ≤ ⌊(s.length : ℚ) - 1⌋ := Int.floor_le_floor hub
      _ = (s.length : ℤ) - 1 := by rw [h2, Int.floor_intCast]
  have hidx : (⌊hq⌋).toNat < s.length := by omega
  have hidx2 : min ((⌊hq⌋).toNat + 1) (s.length - 1) < s.length := by omega
  rw [getD_of_all v s _ hsall hidx, getD_of_all v s _ hsall hidx2]
  ring

theorem dedup_const (l : List ℚ) (v : ℚ) (hne : l ≠ []) (hall : ∀ x ∈ l, x = v) :
    l.dedup = [v] := by
  induction l with
  | nil => cases hne rfl
  | cons a l ih =>
    have ha : a = v := hall a (List.mem_cons_self a l)
    by_cases hl : l = []
    · subst hl
      subst ha
      simp
    · have hlall : ∀ x ∈ l, x = v := fun x hx => hall x (List.mem_cons_of_mem a hx)
      have hmem : a ∈ l := by
        obtain ⟨b, hb⟩ := List.exists_mem_of_ne_nil l hl
        rw [ha]
        exact (hlall b hb) ▸ hb
      rw [List.dedup_cons_of_mem hmem, ih hl hlall]

theorem linspace_bounds (steps : ℕ) : ∀ q ∈ linspaceQ 0 100 steps, 0 ≤ q ∧ q ≤ 100 := by
  intro q hq
  unfold linspaceQ at hq
  obtain ⟨i, hi, rfl⟩ := List.mem_map.1 hq
  rw [List.mem_range] at hi
  rcases Nat.eq_zero_or_pos steps with hz | hpos
  · subst hz
    norm_num
  · have hsp : (0 : ℚ) < (steps : ℚ) := by exact_mod_cast hpos
    have hile : (i : ℚ) ≤ (steps : ℚ) := by exact_mod_cast Nat.lt_succ_iff.1 hi
    constructor
    · positivity
    · rw [zero_add, div_le_iff₀ hsp]
      nlinarith

/-- With an all-identical reference sample every PSI breakpoint is that
value, so after `np.unique` a single edge remains. -/
theorem psiBreakpoints_const (xs : List ℚ) (v : ℚ) (bins : ℕ) (hne : xs ≠ [])
    (hall : ∀ x ∈ xs, x = v) :
    psiBreakpoints xs bins = [v] := by
  unfold psiBreakpoints npUnique
  apply dedup_const
  · have hlen : (sortQ ((linspaceQ 0 100 bins).map (percentile xs))).length = bins + 1 := by
      rw [sortQ, List.length_insertionSort, List.length_map, linspaceQ,
        List.length_map, List.length_range]
    intro hnil
    rw [hnil] at hlen
    cases hlen
  · intro x hx
    rw [sortQ, List.mem_insertionSort] at hx
    obtain ⟨q, hq, rfl⟩ := List.mem_map.1 hx
    obtain ⟨hq0, hq1⟩ := linspace_bounds bins q hq
    exact percentile_const xs v q hne hall hq0 hq1

/-- With a single deduplicated edge there are zero bins and the PSI sum is
empty, hence `0`. -/
theorem psiCore_const (xs ys : List ℚ) (bins : ℕ) (threshold : ℚ) (v : ℚ)
    (hne : xs ≠ []) (hall : ∀ x ∈ xs, x = v) :
    (psiCore xs ys bins threshold).psiValue = 0 := by
  simp only [psiCore, psiBreakpoints_const xs v bins hne hall]
  simp [histogram, shares, psiSum]

/-! ### Classifier lemmas -/

/-- Membership characterisation of the auto-detected categorical features. -/
theorem mem_detectCategoricalFeatures (rd : DataFrame) (f : String) :
    f ∈ detectCategoricalFeatures rd ↔
      ∃ c, (f, c) ∈ rd ∧ (c.dtype ≠ Dtype.numeric ∨ nunique c < 10) := by
  unfold detectCategoricalFeatures
  rw [List.mem_filterMap]
  constructor
  · rintro ⟨⟨g, c⟩, hmem, hval⟩
    by_cases h1 : c.dtype = Dtype.object ∨ c.dtype = Dtype.category
    · rw [if_pos h1] at hval
      obtain rfl : g = f := Option.some.inj hval
      refine ⟨c, hmem, Or.inl ?_⟩
      rcases h1 with h | h <;> simp [h]
    · rw [if_neg h1] at hval
      by_cases h2 : nunique c < 10
      · rw [if_pos h2] at hval
        obtain rfl : g = f := Option.some.inj hval
        exact ⟨c, hmem, Or.inr h2⟩
      · rw [if_neg h2] at hval
        cases hval
  · rintro ⟨c, hmem, hcond⟩
    refine ⟨(f, c), hmem, ?_⟩
    by_cases h1 : c.dtype = Dtype.object ∨ c.dtype = Dtype.category
    · rw [if_pos h1]
    · rw [if_neg h1]
      have h2 : nunique c < 10 := by
        rcases hcond with hdt | h2
        · exfalso
          cases hdt2 : c.dtype with
          | numeric => exact hdt hdt2
          | object => exact h1 (Or.inl hdt2)
          | category => exact h1 (Or.inr hdt2)
        · exact h2
      rw [if_pos h2]

theorem detectCategoricalFeatures_subset (rd : DataFrame) :
    ∀ f ∈ detectCategoricalFeatures rd, f ∈ colNames rd := by
  intro f hf
  obtain ⟨c, hmem, _⟩ := (mem_detectCategoricalFeatures rd f).1 hf
  exact List.mem_map_of_mem Prod.fst hmem

/-- The auto-constructed detector's categorical list is the auto-detected
one, and its continuous list is the (deduplicated) complement. -/
theorem mkDetector_auto_features (rd pd : DataFrame) (alpha theta : ℚ) :
    (mkDetector rd pd none alpha theta).categoricalFeatures =
      detectCategoricalFeatures rd ∧
    ∀ f, f ∈ (mkDetector rd pd none alpha theta).continuousFeatures ↔
      (f ∈ colNames rd ∧ f ∉ detectCategoricalFeatures rd) := by
  constructor
  · rfl
  · intro f
    simp [mkDetector, List.mem_filter, List.mem_dedup]

/-- The constructor stores its arguments unchanged. -/
theorem mkDetector_fields (rd pd : DataFrame) (catOpt : Option (List String))
    (alpha theta : ℚ) :
    (mkDetector rd pd catOpt alpha theta).referenceData = rd ∧
    (mkDetector rd pd catOpt alpha theta).productionData = pd ∧
    (mkDetector rd pd catOpt alpha theta).significanceLevel = alpha ∧
    (mkDetector rd pd catOpt alpha theta).psiThreshold = theta :=
  ⟨rfl, rfl, rfl, rfl⟩

/-! ### Decidable well-formedness side conditions -/

/-- Does `df` have a column `f` whose numeric non-missing data is nonempty? -/
def hasNonemptyNums (df : DataFrame) (f : String) : Bool :=
  match lookupCol df f with
  | some c => decide (asNums (dropna c) ≠ [])
  | none => false

theorem hasNonemptyNums_iff (df : DataFrame) (f : String) :
    hasNonemptyNums df f = true ↔
      ∃ c, lookupCol df f = some c ∧ asNums (dropna c) ≠ [] := by
  unfold hasNonemptyNums
  cases h : lookupCol df f <;> simp

/-- Does `df` have a column `f` whose non-missing data is nonempty? -/
def hasNonemptyData (df : DataFrame) (f : String) : Bool :=
  match lookupCol df f with
  | some c => decide (dropna c ≠ [])
  | none => false

theorem hasNonemptyData_iff (df : DataFrame) (f : String) :
    hasNonemptyData df f = true ↔
      ∃ c, lookupCol df f = some c ∧ dropna c ≠ [] := by
  unfold hasNonemptyData
  cases h : lookupCol df f <;> simp

/-! ### Example data used by the claim witnesses -/

/-- A detector over empty dataframes: both feature lists are empty. -/
def emptyDetector : DriftDetector := mkDetector [] [] none (1 / 20) (1 / 4)

/-- A production dataframe with a column absent from an empty reference. -/
def prodOnlyDF : DataFrame := [("y", ⟨Dtype.numeric, [some (Scalar.num 1)]⟩)]

/-- A detector whose reference is empty while production has a column. -/
def prodOnlyDetector : DriftDetector := mkDetector [] prodOnlyDF none (1 / 20) (1 / 4)

/-! ### Claim theorems -/

/-- C1: `detect_drift` evaluates every classified feature with no early
exit: a returned report carries one detail entry per continuous feature
followed by one per categorical feature (in the classifier's traversal
order), its overall flag is true iff some feature's flag is, and
`features_with_drift` is exactly the drifted subsequence of that order. -/
theorem c1_detect_drift_complete (d : DriftDetector) (r : DriftReport)
    (h : detectDrift d = Except.ok r) :
    r.featureDetails.map Prod.fst = d.continuousFeatures ++ d.categoricalFeatures ∧
    (r.driftDetected = true ↔ ∃ e ∈ r.featureDetails, e.2.drift = true) ∧
    r.featuresWithDrift = (r.featureDetails.filter (fun e => e.2.drift)).map Prod.fst := by
  obtain ⟨entsC, entsK, hCmap, hKmap, _, _, hfd, hfwd, hdd⟩ := detectDrift_parts d r h
  refine ⟨?_, ?_, ?_⟩
  · rw [hfd, List.map_append, hCmap, hKmap]
  · rw [hdd, hfd]
    simp only [List.any_eq_true, List.mem_append, Prod.exists]
  · rw [hfwd, hfd]

theorem c1_witness :
    detectDrift emptyDetector = Except.ok emptyReport ∧
    (emptyReport.featureDetails.map Prod.fst =
      emptyDetector.continuousFeatures ++ emptyDetector.categoricalFeatures ∧
    (emptyReport.driftDetected = true ↔ ∃ e ∈ emptyReport.featureDetails, e.2.drift = true) ∧
    emptyReport.featuresWithDrift =
      (emptyReport.featureDetails.filter (fun e => e.2.drift)).map Prod.fst) :=
  ⟨rfl, c1_detect_drift_complete emptyDetector emptyReport rfl⟩

/-- C6 counterexample: the constructor accepts a significance level of `2`
(outside `(0, 1)`) and a PSI threshold of `-1` (non-positive) without any
error — `__init__` contains no validation, so such configurations are
stored verbatim instead of being rejected. -/
theorem c6_counterexample :
    (mkDetector [] [] none 2 (-1)).significanceLevel = 2 ∧
    (mkDetector [] [] none 2 (-1)).psiThreshold = -1 :=
  ⟨rfl, rfl⟩

/-- C6 (amended): construction never fails; the constructor performs no
validation and stores every configuration parameter exactly as given (and
the PSI bin count is not a constructor parameter at all). -/
theorem c6_no_validation (rd pd : DataFrame) (catOpt : Option (List String))
    (alpha theta : ℚ) :
    (mkDetector rd pd catOpt alpha theta).significanceLevel = alpha ∧
    (mkDetector rd pd catOpt alpha theta).psiThreshold = theta ∧
    (mkDetector rd pd catOpt alpha theta).referenceData = rd ∧
    (mkDetector rd pd catOpt alpha theta).productionData = pd :=
  ⟨rfl, rfl, rfl, rfl⟩

/-- C7: the KS and chi-square drift flags are `p-value < significance`
(strict), while the PSI flag is `threshold ≤ PSI` (inclusive). -/
theorem c7_flag_boundaries (xs ys : List ℚ) (alpha theta : ℚ) (bins : ℕ)
    (d : DriftDetector) (f : String) (ch : ChiResult)
    (hch : chiSquareTest d f = Except.ok ch) :
    ((ksTestCore xs ys alpha).driftDetected = true ↔
      (ksTestCore xs ys alpha).pValue < alpha) ∧
    ((psiCore xs ys bins theta).driftDetected = true ↔
      (theta : ℝ) ≤ (psiCore xs ys bins theta).psiValue) ∧
    (ch.driftDetected = true ↔ ch.pValue < (d.significanceLevel : ℝ)) := by
  refine ⟨?_, ?_, ?_⟩
  · simp [ksTestCore]
  · simp only [psiCore]
    exact pdec_eq_true_iff _
  · simp only [chiSquareTest] at hch
    split at hch
    · split at hch
      · exact Except.noConfusion hch
      · cases Except.ok.inj hch
        exact pdec_eq_true_iff _
    · exact Except.noConfusion hch

/-- C9: classification is deterministic: it depends only on the reference
data (not on production data or thresholds), repeated construction yields
the same partition, and two `detect_drift` runs on the same detector return
the same report, whose feature order is the classifier's traversal order. -/
theorem c9_deterministic (rd pd pd' : DataFrame) (alpha theta alpha' theta' : ℚ)
    (r r' : DriftReport)
    (h : detectDrift (mkDetector rd pd none alpha theta) = Except.ok r)
    (h' : detectDrift (mkDetector rd pd none alpha theta) = Except.ok r') :
    (mkDetector rd pd none alpha theta).categoricalFeatures =
      (mkDetector rd pd' none alpha' theta').categoricalFeatures ∧
    (mkDetector rd pd none alpha theta).continuousFeatures =
      (mkDetector rd pd' none alpha' theta').continuousFeatures ∧
    r = r' ∧
    r.featureDetails.map Prod.fst =
      (mkDetector rd pd none alpha theta).continuousFeatures ++
        (mkDetector rd pd none alpha theta).categoricalFeatures := by
  refine ⟨rfl, rfl, ?_, ?_⟩
  · rw [h] at h'
    exact Except.ok.inj h'
  · obtain ⟨entsC, entsK, hCmap, hKmap, _, _, hfd, _, _⟩ := detectDrift_parts _ _ h
    rw [hfd, List.map_append, hCmap, hKmap]

theorem c9_witness :
    (detectDrift (mkDetector [] prodOnlyDF none (1 / 20) (1 / 4)) = Except.ok emptyReport) ∧
    ((mkDetector [] prodOnlyDF none (1 / 20) (1 / 4)).categoricalFeatures =
      (mkDetector [] [] none (1 / 10) (1 / 2)).categoricalFeatures ∧
    (mkDetector [] prodOnlyDF none (1 / 20) (1 / 4)).continuousFeatures =
      (mkDetector [] [] none (1 / 10) (1 / 2)).continuousFeatures ∧
    emptyReport = emptyReport ∧
    emptyReport.featureDetails.map Prod.fst =
      (mkDetector [] prodOnlyDF none (1 / 20) (1 / 4)).continuousFeatures ++
        (mkDetector [] prodOnlyDF none (1 / 20) (1 / 4)).categoricalFeatures) :=
  ⟨rfl, c9_deterministic [] prodOnlyDF [] (1 / 20) (1 / 4) (1 / 10) (1 / 2)
    emptyReport emptyReport rfl rfl⟩

/-- C10: classification is driven solely by the reference dataset's columns:
a column present only in the production dataset is never classified into
either group and never appears in the report's details or drift list. -/
theorem c10_production_only_ignored (rd pd : DataFrame) (alpha theta : ℚ) (f : String)
    (hf : f ∉ colNames rd) :
    f ∉ (mkDetector rd pd none alpha theta).categoricalFeatures ∧
    f ∉ (mkDetector rd pd none alpha theta).continuousFeatures ∧
    ∀ r, detectDrift (mkDetector rd pd none alpha theta) = Except.ok r →
      f ∉ r.featureDetails.map Prod.fst ∧ f ∉ r.featuresWithDrift := by
  have hcat : f ∉ (mkDetector rd pd none alpha theta).categoricalFeatures :=
    fun h => hf (detectCategoricalFeatures_subset rd f h)
  have hcont : f ∉ (mkDetector rd pd none alpha theta).continuousFeatures :=
    fun h => hf (((mkDetector_auto_features rd pd alpha theta).2 f).1 h).1
  refine ⟨hcat, hcont, ?_⟩
  intro r hr
  obtain ⟨entsC, entsK, hCmap, hKmap, _, _, hfd, hfwd, _⟩ := detectDrift_parts _ _ hr
  have hkeys : f ∉ r.featureDetails.map Prod.fst := by
    rw [hfd, List.map_append, hCmap, hKmap]
    intro hmem
    rcases List.mem_append.1 hmem with hm | hm
    · exact hcont hm
    · exact hcat hm
  refine ⟨hkeys, ?_⟩
  intro hmem
  apply hkeys
  rw [hfwd] at hmem
  obtain ⟨e, he, rfl⟩ := List.mem_map.1 hmem
  have hefd : e ∈ r.featureDetails := by
    rw [hfd]
    exact List.mem_of_mem_filter he
  exact List.mem_map_of_mem Prod.fst hefd

theorem c10_witness :
    ("y" ∉ colNames ([] : DataFrame)) ∧
    ("y" ∉ prodOnlyDetector.categoricalFeatures ∧
     "y" ∉ prodOnlyDetector.continuousFeatures ∧
     ("y" ∉ emptyReport.featureDetails.map Prod.fst ∧
      "y" ∉ emptyReport.featuresWithDrift)) := by
  have hf : "y" ∉ colNames ([] : DataFrame) := by simp [colNames]
  have hmain := c10_production_only_ignored [] prodOnlyDF (1 / 20) (1 / 4) "y" hf
  exact ⟨hf, hmain.1, hmain.2.1, hmain.2.2 emptyReport rfl⟩

/-- C3: with no explicit categorical list a reference column is categorical
iff its dtype is non-numeric or it has fewer than 10 distinct non-missing
values, and the remaining columns are continuous; in particular a numeric
binary column (values in `{0, 1}`) is classified categorical, receives a
chi-square detail entry in the report, and never a KS/PSI one. -/
theorem c3_classifier (rd pd : DataFrame) (alpha theta : ℚ) (f : String) (c : Column)
    (hmem : (f, c) ∈ rd)
    (_hdt : c.dtype = Dtype.numeric)
    (hbin : ∀ x ∈ dropna c, x = Scalar.num 0 ∨ x = Scalar.num 1) :
    (∀ g, g ∈ (mkDetector rd pd none alpha theta).categoricalFeatures ↔
      ∃ cc, (g, cc) ∈ rd ∧ (cc.dtype ≠ Dtype.numeric ∨ nunique cc < 10)) ∧
    (∀ g, g ∈ (mkDetector rd pd none alpha theta).continuousFeatures ↔
      g ∈ colNames rd ∧ g ∉ (mkDetector rd pd none alpha theta).categoricalFeatures) ∧
    f ∈ (mkDetector rd pd none alpha theta).categoricalFeatures ∧
    f ∉ (mkDetector rd pd none alpha theta).continuousFeatures ∧
    (∀ r, detectDrift (mkDetector rd pd none alpha theta) = Except.ok r →
      (∃ ch b, (f, FeatureDetail.categorical ch b) ∈ r.featureDetails) ∧
      ∀ k q b, (f, FeatureDetail.continuous k q b) ∉ r.featureDetails) := by
  obtain ⟨hcatEq, hcontIff⟩ := mkDetector_auto_features rd pd alpha theta
  have hiff : ∀ g, g ∈ (mkDetector rd pd none alpha theta).categoricalFeatures ↔
      ∃ cc, (g, cc) ∈ rd ∧ (cc.dtype ≠ Dtype.numeric ∨ nunique cc < 10) := by
    intro g
    rw [hcatEq]
    exact mem_detectCategoricalFeatures rd g
  have hnun : nunique c < 10 := by
    have hsub : (dropna c).dedup.toFinset ⊆ ({Scalar.num 0, Scalar.num 1} : Finset Scalar) := by
      intro x hx
      rw [List.mem_toFinset, List.mem_dedup] at hx
      rcases hbin x hx with h | h <;> simp [h]
    have hcard2 : ({Scalar.num 0, Scalar.num 1} : Finset Scalar).card ≤ 2 := by
      refine le_trans (Finset.card_insert_le _ _) ?_
      simp
    have hlen : (dropna c).dedup.length ≤ 2 := by
      rw [← List.toFinset_card_of_nodup (List.nodup_dedup _)]
      exact le_trans (Finset.card_le_card hsub) hcard2
    unfold nunique
    omega
  have hfcat : f ∈ (mkDetector rd pd none alpha theta).categoricalFeatures :=
    (hiff f).2 ⟨c, hmem, Or.inr hnun⟩
  have hfcont : f ∉ (mkDetector rd pd none alpha theta).continuousFeatures := by
    intro h
    have h2 := (hcontIff f).1 h
    rw [hcatEq] at hfcat
    exact h2.2 hfcat
  refine ⟨hiff, fun g => by rw [hcontIff g, hcatEq], hfcat, hfcont, ?_⟩
  intro r hr
  obtain ⟨entsC, entsK, hCmap, hKmap, _, hKdet, hfd, _, _⟩ := detectDrift_parts _ _ hr
  constructor
  · have hfk : f ∈ entsK.map Prod.fst := by
      rw [hKmap]
      exact hfcat
    obtain ⟨e, he, hfe⟩ := List.mem_map.1 hfk
    obtain ⟨ch, _, hshape⟩ := hKdet e he
    refine ⟨ch, ch.driftDetected, ?_⟩
    rw [hfd]
    apply List.mem_append_right
    have he2 : e = (f, FeatureDetail.categorical ch ch.driftDetected) := by
      obtain ⟨e1, e2⟩ := e
      simp only at hfe hshape
      rw [hfe, hshape]
    rw [← he2]
    exact he
  · intro k q b hmem2
    rw [hfd] at hmem2
    rcases List.mem_append.1 hmem2 with hm | hm
    · apply hfcont
      rw [← hCmap]
      exact List.mem_map_of_mem Prod.fst hm
    · obtain ⟨ch, _, hshape⟩ := hKdet _ hm
      exact FeatureDetail.noConfusion hshape

/-- A numeric binary column, its dataframe, and a detector over it. -/
def binCol : Column :=
  ⟨Dtype.numeric, [some (Scalar.num 0), some (Scalar.num 1), some (Scalar.num 0)]⟩

def binDF : DataFrame := [("b", binCol)]

def binDetector : DriftDetector := mkDetector binDF binDF none (1 / 20) (1 / 4)

/-- The report `detect_drift` produces on `binDetector`. -/
noncomputable def binReport : DriftReport :=
  { driftDetected := false, featuresWithDrift := [],
    featureDetails := [("b", FeatureDetail.categorical
      { statistic := 0, pValue := 1, driftDetected := false } false)] }

theorem c3_witness :
    (("b", binCol) ∈ binDF) ∧ (binCol.dtype = Dtype.numeric) ∧
    (∀ x ∈ dropna binCol, x = Scalar.num 0 ∨ x = Scalar.num 1) ∧
    (detectDrift binDetector = Except.ok binReport) ∧
    ("b" ∈ binDetector.categoricalFeatures ∧
     "b" ∉ binDetector.continuousFeatures ∧
     ((∃ ch b, ("b", FeatureDetail.categorical ch b) ∈ binReport.featureDetails) ∧
      ∀ k q b, ("b", FeatureDetail.continuous k q b) ∉ binReport.featureDetails)) := by
  have hch : chiSquareTest binDetector "b" =
      Except.ok { statistic := 0, pValue := 1, driftDetected := false } :=
    chiSquareTest_self binDetector "b" binCol rfl rfl (by decide)
      (show (1 : ℚ) / 20 ≤ 1 by norm_num)
  have h1 : goCont binDetector binDetector.continuousFeatures emptyReport =
      Except.ok emptyReport := rfl
  have hok : detectDrift binDetector = Except.ok binReport := by
    unfold detectDrift
    rw [h1]
    show goCat binDetector ["b"] emptyReport = Except.ok binReport
    simp only [goCat]
    rw [hch]
    rfl
  have hmain := c3_classifier binDF binDF (1 / 20) (1 / 4) "b" binCol
    (by decide) rfl (by decide)
  exact ⟨by decide, rfl, by decide, hok,
    hmain.2.2.1, hmain.2.2.2.1, hmain.2.2.2.2 binReport hok⟩

/-- C4: the chi-square comparison's contingency table ranges over the union
of the categories observed in either dataset; a category present on only
one side appears with count `0` on the other; and with both sides nonempty
after dropping missing values the test returns a result instead of
raising. -/
theorem c4_union_categories (d : DriftDetector) (f : String) (rc pc : Column)
    (hrc : lookupCol d.referenceData f = some rc)
    (hpc : lookupCol d.productionData f = some pc)
    (h1 : dropna rc ≠ []) (h2 : dropna pc ≠ []) :
    (∀ c, c ∈ chiCategories (dropna rc) (dropna pc) ↔
      c ∈ dropna rc ∨ c ∈ dropna pc) ∧
    (∀ c, c ∈ dropna pc → c ∉ dropna rc →
      (0, (dropna pc).count c) ∈ contingencyTable (dropna rc) (dropna pc) ∧
        0 < (dropna pc).count c) ∧
    (∀ c, c ∈ dropna rc → c ∉ dropna pc →
      ((dropna rc).count c, 0) ∈ contingencyTable (dropna rc) (dropna pc) ∧
        0 < (dropna rc).count c) ∧
    (∃ ch, chiSquareTest d f = Except.ok ch) := by
  refine ⟨mem_chiCategories _ _, ?_, ?_, chiSquareTest_ok d f rc pc hrc hpc h1 h2⟩
  · intro c hcp hcr
    have hcat : c ∈ chiCategories (dropna rc) (dropna pc) :=
      (mem_chiCategories _ _ c).2 (Or.inr hcp)
    have hpair : ((dropna rc).count c, (dropna pc).count c) ∈
        contingencyTable (dropna rc) (dropna pc) :=
      List.mem_map_of_mem (fun c => ((dropna rc).count c, (dropna pc).count c)) hcat
    rw [List.count_eq_zero.2 hcr] at hpair
    exact ⟨hpair, List.count_pos_iff.2 hcp⟩
  · intro c hcr hcp
    have hcat : c ∈ chiCategories (dropna rc) (dropna pc) :=
      (mem_chiCategories _ _ c).2 (Or.inl hcr)
    have hpair : ((dropna rc).count c, (dropna pc).count c) ∈
        contingencyTable (dropna rc) (dropna pc) :=
      List.mem_map_of_mem (fun c => ((dropna rc).count c, (dropna pc).count c)) hcat
    rw [List.count_eq_zero.2 hcp] at hpair
    exact ⟨hpair, List.count_pos_iff.2 hcr⟩

/-- A categorical column whose production data has a brand-new category. -/
def newCatRef : Column := ⟨Dtype.object, [some (Scalar.str "a"), some (Scalar.str "a")]⟩

def newCatProd : Column := ⟨Dtype.object, [some (Scalar.str "a"), some (Scalar.str "new")]⟩

def newCatDetector : DriftDetector :=
  mkDetector [("c", newCatRef)] [("c", newCatProd)] none (1 / 20) (1 / 4)

theorem c4_witness :
    (lookupCol newCatDetector.referenceData "c" = some newCatRef) ∧
    (lookupCol newCatDetector.productionData "c" = some newCatProd) ∧
    (dropna newCatRef ≠ []) ∧ (dropna newCatProd ≠ []) ∧
    ((∀ c, c ∈ chiCategories (dropna newCatRef) (dropna newCatProd) ↔
      c ∈ dropna newCatRef ∨ c ∈ dropna newCatProd) ∧
    (∀ c, c ∈ dropna newCatProd → c ∉ dropna newCatRef →
      (0, (dropna newCatProd).count c) ∈
        contingencyTable (dropna newCatRef) (dropna newCatProd) ∧
        0 < (dropna newCatProd).count c) ∧
    (∀ c, c ∈ dropna newCatRef → c ∉ dropna newCatProd →
      ((dropna newCatRef).count c, 0) ∈
        contingencyTable (dropna newCatRef) (dropna newCatProd) ∧
        0 < (dropna newCatRef).count c) ∧
    (∃ ch, chiSquareTest newCatDetector "c" = Except.ok ch)) :=
  ⟨rfl, rfl, by decide, by decide,
    c4_union_categories newCatDetector "c" newCatRef newCatProd rfl rfl
      (by decide) (by decide)⟩

/-- C5 counterexample: for the all-identical reference sample `[5, 5, 5]`
the deduplicated breakpoints are the single edge `[5]`, so the histogram
has zero bins — not the single effective bin the claim states. -/
theorem c5_counterexample :
    psiBreakpoints [5, 5, 5] 10 = [(5 : ℚ)] ∧
    (histogram [5, 5, 5] (psiBreakpoints [5, 5, 5] 10)).length = 0 ∧
    (histogram [5, 5, 5] (psiBreakpoints [5, 5, 5] 10)).length ≠ 1 := by
  have hbp : psiBreakpoints [5, 5, 5] 10 = [(5 : ℚ)] :=
    psiBreakpoints_const [5, 5, 5] 5 10 (by decide) (by decide)
  refine ⟨hbp, by rw [hbp]; rfl, by rw [hbp]; decide⟩

/-- C5 (amended): for a feature whose non-missing reference values are all
identical, the breakpoints deduplicate to a single edge — zero effective
bins, not one — and `calculate_psi` returns the finite PSI `0` without
raising an error. -/
theorem c5_degenerate_psi (d : DriftDetector) (f : String) (c : Column) (v : ℚ)
    (hc : lookupCol d.referenceData f = some c)
    (hpcol : ∃ pcol, lookupCol d.productionData f = some pcol)
    (hne : asNums (dropna c) ≠ [])
    (hall : ∀ x ∈ asNums (dropna c), x = v) :
    psiBreakpoints (asNums (dropna c)) 10 = [v] ∧
    (histogram (asNums (dropna c)) (psiBreakpoints (asNums (dropna c)) 10)).length = 0 ∧
    ∃ q, calculatePsi d f 10 = Except.ok q ∧ q.psiValue = 0 := by
  obtain ⟨pcol, hp⟩ := hpcol
  have hbp := psiBreakpoints_const (asNums (dropna c)) v 10 hne hall
  refine ⟨hbp, by rw [hbp]; rfl, ?_⟩
  refine ⟨psiCore (asNums (dropna c)) (asNums (dropna pcol)) 10 d.psiThreshold, ?_, ?_⟩
  · simp only [calculatePsi, hc, hp]
    rw [if_neg (by simp [List.length_eq_zero, hne])]
  · exact psiCore_const _ _ _ _ v hne hall

/-- A zero-variance numeric column and a detector over it. -/
def constCol : Column :=
  ⟨Dtype.numeric, [some (Scalar.num 5), some (Scalar.num 5), some (Scalar.num 5)]⟩

def constDetector : DriftDetector :=
  mkDetector [("z", constCol)] [("z", constCol)] none (1 / 20) (1 / 4)

theorem c5_witness :
    (lookupCol constDetector.referenceData "z" = some constCol) ∧
    (∃ pcol, lookupCol constDetector.productionData "z" = some pcol) ∧
    (asNums (dropna constCol) ≠ []) ∧
    (∀ x ∈ asNums (dropna constCol), x = (5 : ℚ)) ∧
    (psiBreakpoints (asNums (dropna constCol)) 10 = [(5 : ℚ)] ∧
    (histogram (asNums (dropna constCol))
      (psiBreakpoints (asNums (dropna constCol)) 10)).length = 0 ∧
    ∃ q, calculatePsi constDetector "z" 10 = Except.ok q ∧ q.psiValue = 0) :=
  ⟨rfl, ⟨constCol, rfl⟩, by decide, by decide,
    c5_degenerate_psi constDetector "z" constCol 5 rfl ⟨constCol, rfl⟩
      (by decide) (by decide)⟩

/-- C8: on nonempty data the PSI value returned by `calculate_psi` is
nonnegative: after clamping, every bin's term
`(prod_share − ref_share) · ln(prod_share / ref_share)` is nonnegative. -/
theorem c8_psi_nonneg (d : DriftDetector) (f : String) (rc pc : Column)
    (hrc : lookupCol d.referenceData f = some rc)
    (hpc : lookupCol d.productionData f = some pc)
    (h1 : asNums (dropna rc) ≠ []) (_h2 : asNums (dropna pc) ≠ []) :
    ∃ q, calculatePsi d f 10 = Except.ok q ∧ 0 ≤ q.psiValue := by
  refine ⟨psiCore (asNums (dropna rc)) (asNums (dropna pc)) 10 d.psiThreshold,
    ?_, psiCore_nonneg _ _ _ _⟩
  simp only [calculatePsi, hrc, hpc]
  rw [if_neg (by simp [List.length_eq_zero, h1])]

/-- Two small unequal numeric columns and a detector over them. -/
def numRefCol : Column := ⟨Dtype.numeric, [some (Scalar.num 1), some (Scalar.num 3), none]⟩

def numProdCol : Column := ⟨Dtype.numeric, [some (Scalar.num 2), some (Scalar.num 7)]⟩

def numDetector : DriftDetector :=
  mkDetector [("w", numRefCol)] [("w", numProdCol)] none (1 / 20) (1 / 4)

theorem c8_witness :
    (lookupCol numDetector.referenceData "w" = some numRefCol) ∧
    (lookupCol numDetector.productionData "w" = some numProdCol) ∧
    (asNums (dropna numRefCol) ≠ []) ∧ (asNums (dropna numProdCol) ≠ []) ∧
    (∃ q, calculatePsi numDetector "w" 10 = Except.ok q ∧ 0 ≤ q.psiValue) :=
  ⟨rfl, rfl, by decide, by decide,
    c8_psi_nonneg numDetector "w" numRefCol numProdCol rfl rfl (by decide) (by decide)⟩

/-- A report detail entry witnessing "no drift at this feature": p-values
`1`, PSI `0`, and every flag off. -/
def NoDriftDetail : FeatureDetail → Prop
  | .continuous k q b => k.pValue = 1 ∧ k.driftDetected = false ∧
      q.psiValue = 0 ∧ q.driftDetected = false ∧ b = false
  | .categorical ch b => ch.pValue = 1 ∧ ch.driftDetected = false ∧ b = false

/-- C2: on identical reference and production datasets (with every feature
nonempty after dropping missing values, and a valid configuration) no
feature drifts: every KS and chi-square p-value is `1`, every PSI is `0`,
`features_with_drift` is empty and the overall verdict is `false`. -/
theorem c2_identical_no_drift (d : DriftDetector)
    (hpr : d.productionData = d.referenceData)
    (halpha : d.significanceLevel ≤ 1)
    (htheta : 0 < d.psiThreshold)
    (hC : ∀ f ∈ d.continuousFeatures, hasNonemptyNums d.referenceData f = true)
    (hK : ∀ f ∈ d.categoricalFeatures, hasNonemptyData d.referenceData f = true) :
    ∃ r, detectDrift d = Except.ok r ∧
      r.driftDetected = false ∧
      r.featuresWithDrift = [] ∧
      ∀ e ∈ r.featureDetails, NoDriftDetail e.2 := by
  have hCok : ∀ f ∈ d.continuousFeatures,
      (∃ k, ksTest d f = Except.ok k) ∧ (∃ q, calculatePsi d f 10 = Except.ok q) := by
    intro f hf
    obtain ⟨c, hc, hne⟩ := (hasNonemptyNums_iff _ _).1 (hC f hf)
    exact ⟨⟨_, ksTest_self d f c hpr hc hne halpha⟩,
      ⟨_, (calculatePsi_self d f c hpr hc hne htheta).1⟩⟩
  have hKok : ∀ f ∈ d.categoricalFeatures, ∃ ch, chiSquareTest d f = Except.ok ch := by
    intro f hf
    obtain ⟨c, hc, hne⟩ := (hasNonemptyData_iff _ _).1 (hK f hf)
    exact ⟨_, chiSquareTest_self d f c hpr hc hne halpha⟩
  obtain ⟨r, hr⟩ := detectDrift_total d hCok hKok
  obtain ⟨entsC, entsK, hCmap, hKmap, hCdet, hKdet, hfd, hfwd, hdd⟩ :=
    detectDrift_parts d r hr
  have hCont : ∀ e ∈ entsC, NoDriftDetail e.2 ∧ e.2.drift = false := by
    intro e he
    obtain ⟨k, q, hk, hq, hshape⟩ := hCdet e he
    have hfC : e.1 ∈ d.continuousFeatures := by
      rw [← hCmap]
      exact List.mem_map_of_mem Prod.fst he
    obtain ⟨c, hc, hne⟩ := (hasNonemptyNums_iff _ _).1 (hC e.1 hfC)
    have hks := ksTest_self d e.1 c hpr hc hne halpha
    rw [hk] at hks
    have hkk := Except.ok.inj hks
    obtain ⟨hpsiEq, hpv, hpb⟩ := calculatePsi_self d e.1 c hpr hc hne htheta
    rw [hq] at hpsiEq
    have hqq := Except.ok.inj hpsiEq
    subst hkk
    subst hqq
    rw [hshape]
    constructor
    · exact ⟨rfl, rfl, hpv, hpb, by simp [hpb]⟩
    · simp [FeatureDetail.drift, hpb]
  have hKat : ∀ e ∈ entsK, NoDriftDetail e.2 ∧ e.2.drift = false := by
    intro e he
    obtain ⟨ch, hchk, hshape⟩ := hKdet e he
    have hfK : e.1 ∈ d.categoricalFeatures := by
      rw [← hKmap]
      exact List.mem_map_of_mem Prod.fst he
    obtain ⟨c, hc, hne⟩ := (hasNonemptyData_iff _ _).1 (hK e.1 hfK)
    have hchs := chiSquareTest_self d e.1 c hpr hc hne halpha
    rw [hchk] at hchs
    have hcc := Except.ok.inj hchs
    subst hcc
    rw [hshape]
    exact ⟨⟨rfl, rfl, rfl⟩, rfl⟩
  have hallfalse : ∀ e ∈ entsC ++ entsK, e.2.drift = false := by
    intro e he
    rcases List.mem_append.1 he with h | h
    exacts [(hCont e h).2, (hKat e h).2]
  refine ⟨r, hr, ?_, ?_, ?_⟩
  · rw [hdd]
    simp only [List.any_eq_false]
    intro e he
    simp [hallfalse e he]
  · rw [hfwd]
    have hfil : (entsC ++ entsK).filter (fun e => e.2.drift) = [] := by
      simp only [List.filter_eq_nil_iff]
      intro e he
      simp [hallfalse e he]
    rw [hfil]
    rfl
  · intro e he
    rw [hfd] at he
    rcases List.mem_append.1 he with h | h
    exacts [(hCont e h).1, (hKat e h).1]

/-- A column with ten distinct numeric values (hence continuous). -/
def contCol : Column :=
  ⟨Dtype.numeric, [some (Scalar.num 1), some (Scalar.num 2), some (Scalar.num 3),
    some (Scalar.num 4), some (Scalar.num 5), some (Scalar.num 6), some (Scalar.num 7),
    some (Scalar.num 8), some (Scalar.num 9), some (Scalar.num 10)]⟩

/-- A one-column categorical dataframe column. -/
def catCol : Column := ⟨Dtype.object, [some (Scalar.str "a"), some (Scalar.str "b")]⟩

/-- A dataframe with one continuous and one categorical feature. -/
def identDF : DataFrame := [("x", contCol), ("c", catCol)]

/-- A detector whose production data is its reference data. -/
def identDetector : DriftDetector := mkDetector identDF identDF none (1 / 20) (1 / 4)

theorem c2_witness :
    (identDetector.productionData = identDetector.referenceData) ∧
    (identDetector.significanceLevel ≤ 1) ∧
    (0 < identDetector.psiThreshold) ∧
    (∀ f ∈ identDetector.continuousFeatures,
      hasNonemptyNums identDetector.referenceData f = true) ∧
    (∀ f ∈ identDetector.categoricalFeatures,
      hasNonemptyData identDetector.referenceData f = true) ∧
    (∃ r, detectDrift identDetector = Except.ok r ∧
      r.driftDetected = false ∧
      r.featuresWithDrift = [] ∧
      ∀ e ∈ r.featureDetails, NoDriftDetail e.2) :=
  ⟨rfl, show (1 : ℚ) / 20 ≤ 1 by norm_num, show (0 : ℚ) < 1 / 4 by norm_num,
    by decide, by decide,
    c2_identical_no_drift identDetector rfl
      (show (1 : ℚ) / 20 ≤ 1 by norm_num) (show (0 : ℚ) < 1 / 4 by norm_num)
      (by decide) (by decide)⟩

theorem c7_witness :
    (chiSquareTest identDetector "c" =
      Except.ok { statistic := 0, pValue := 1, driftDetected := false }) ∧
    (((ksTestCore [1] [2] (1 / 20)).driftDetected = true ↔
      (ksTestCore [1] [2] (1 / 20)).pValue < 1 / 20) ∧
    ((psiCore [1] [2] 10 (1 / 4)).driftDetected = true ↔
      ((1 / 4 : ℚ) : ℝ) ≤ (psiCore [1] [2] 10 (1 / 4)).psiValue) ∧
    (({ statistic := 0, pValue := 1, driftDetected := false } : ChiResult).driftDetected = true ↔
      ({ statistic := 0, pValue := 1, driftDetected := false } : ChiResult).pValue <
        (identDetector.significanceLevel : ℝ))) := by
  have hch : chiSquareTest identDetector "c" =
      Except.ok { statistic := 0, pValue := 1, driftDetected := false } :=
    chiSquareTest_self identDetector "c" catCol rfl rfl (by decide)
      (show (1 : ℚ) / 20 ≤ 1 by norm_num)
  exact ⟨hch, c7_flag_boundaries [1] [2] (1 / 20) (1 / 4) 10 identDetector "c" _ hch⟩

end Sentinel
